import Mathlib

/-!
Shallow embedding of the `amplifier-module-resolution` library
(`src/amplifier_module_resolution/sources.py` and `resolvers.py`).

Strings are modelled at the code-point level (`List Char`), matching Python's
`str` indexing and slicing.  Python's filesystem and collaborator effects are
modelled as explicit function-valued fields of a context record.
-/

/-- Python `s.startswith(pre)`: code-point prefix test. -/
def pyStartsWith (s pre : String) : Bool :=
  pre.data.isPrefixOf s.data

/-- Python `s[n:]`: slicing by code points. -/
def pyDrop (s : String) (n : Nat) : String :=
  ⟨s.data.drop n⟩

/-- Python `s.split(sep, 1)` for a non-empty separator: split at the FIRST
occurrence of `sep`, returning `none` when `sep` does not occur in the string
(which is how the code guards the split with `if sep in s`). -/
def splitOnce (sep : List Char) : List Char → Option (List Char × List Char)
  | [] => if sep.isPrefixOf ([] : List Char) then some ([], []) else none
  | c :: rest =>
    if sep.isPrefixOf (c :: rest) then some ([], (c :: rest).drop sep.length)
    else
      match splitOnce sep rest with
      | some (a, b) => some (c :: a, b)
      | none => none

/-- Python `s.rsplit(ch, 1)` for a one-character separator: split at the LAST
occurrence, `none` when the character does not occur. -/
def rsplitChar (ch : Char) : List Char → Option (List Char × List Char)
  | [] => none
  | c :: rest =>
    match rsplitChar ch rest with
    | some (a, b) => some (c :: a, b)
    | none => if c = ch then some ([], rest) else none

/-- Split at the LAST occurrence of a multi-character separator.  Used only to
state the reading of the git URI grammar in which the subdirectory split picks
the last `#subdirectory=` occurrence, for comparison with the code. -/
def splitLastOcc (sep : List Char) : List Char → Option (List Char × List Char)
  | [] => none
  | c :: rest =>
    match splitLastOcc sep rest with
    | some (a, b) => some (c :: a, b)
    | none =>
      if sep.isPrefixOf (c :: rest) then some ([], (c :: rest).drop sep.length) else none

/-- Errors raised by the parsing and resolving code: `ValueError` from
`GitSource.from_uri` / `_parse_source`, `KeyError` from a missing dict field,
and `ModuleResolutionError` from `_resolve_package`. -/
inductive ResolveErr where
  | gitPrefixMissing (uri : String)
  | invalidSourceType (sourceType : Option String) (moduleId : String)
  | keyError (field : String)
  | notFound (message : String)
deriving DecidableEq

/-- `GitSource` value object: `url`, `ref` (default "main") and optional
`subdirectory`, as in `sources.py`. -/
structure GitSource where
  url : String
  ref : String
  subdirectory : Option String
deriving DecidableEq

/-- The literal separator `"#subdirectory="` used by `GitSource.from_uri`. -/
def subdirMarker : List Char := "#subdirectory=".data

/-- The `@`-splitting phase of `GitSource.from_uri`: `rsplit("@", 1)` on the
remainder when `"@" in uri`, otherwise `ref` defaults to `"main"`. -/
def fromUriTail (remainder : List Char) (sub : Option String) : Except ResolveErr GitSource :=
  match rsplitChar '@' remainder with
  | some (u, r) => .ok ⟨⟨u⟩, ⟨r⟩, sub⟩
  | none => .ok ⟨⟨remainder⟩, "main", sub⟩

/-- `GitSource.from_uri` from `sources.py`: require the `git+` prefix, strip
it, split once (at the first occurrence) on `"#subdirectory="` when present,
then split the remainder at the last `@` when present. -/
def GitSource.from_uri (uri : String) : Except ResolveErr GitSource :=
  if pyStartsWith uri "git+" = false then .error (.gitPrefixMissing uri)
  else
    let rest := uri.data.drop 4
    match splitOnce subdirMarker rest with
    | some (before, after) => fromUriTail before (some ⟨after⟩)
    | none => fromUriTail rest none

/-- The descriptor string that `GitSource._download_via_uv` rebuilds from a
`GitSource` (`git+<url>@<ref>` plus `#subdirectory=<sub>` when the
subdirectory is truthy): the code's only serialization of a `GitSource` back
to a descriptor string. -/
def GitSource.gitUrl (g : GitSource) : String :=
  let base := "git+" ++ g.url ++ "@" ++ g.ref
  match g.subdirectory with
  | some d => if d = "" then base else base ++ "#subdirectory=" ++ d
  | none => base

/-- The parse of the git URI grammar as the specification words it: split on
the LAST occurrence of `"#subdirectory="` first.  Stated only to compare with
`GitSource.from_uri`, which splits on the first occurrence. -/
def GitSource.fromUriSpecLast (uri : String) : Except ResolveErr GitSource :=
  if pyStartsWith uri "git+" = false then .error (.gitPrefixMissing uri)
  else
    let rest := uri.data.drop 4
    match splitLastOcc subdirMarker rest with
    | some (before, after) => fromUriTail before (some ⟨after⟩)
    | none => fromUriTail rest none

/-! ### SHA-256 (hashlib.sha256) over UTF-8 bytes, for the cache key -/

/-- Truncate to a 32-bit word. -/
def w32 (n : Nat) : Nat := n % 4294967296

/-- 32-bit right rotation (argument assumed `< 2^32`). -/
def rotr32 (x n : Nat) : Nat := w32 ((x >>> n) ||| (x <<< (32 - n)))

def shaCh (e f g : Nat) : Nat := (e &&& f) ^^^ ((e ^^^ 4294967295) &&& g)

def shaMaj (a b c : Nat) : Nat := (a &&& b) ^^^ (a &&& c) ^^^ (b &&& c)

def bigSigma0 (x : Nat) : Nat := rotr32 x 2 ^^^ rotr32 x 13 ^^^ rotr32 x 22

def bigSigma1 (x : Nat) : Nat := rotr32 x 6 ^^^ rotr32 x 11 ^^^ rotr32 x 25

def smallSigma0 (x : Nat) : Nat := rotr32 x 7 ^^^ rotr32 x 18 ^^^ (x >>> 3)

def smallSigma1 (x : Nat) : Nat := rotr32 x 17 ^^^ rotr32 x 19 ^^^ (x >>> 10)

/-- SHA-256 round constants. -/
def shaK : List Nat :=
  [1116352408, 1899447441, 3049323471, 3921009573, 961987163, 1508970993,
   2453635748, 2870763221, 3624381080, 310598401, 607225278, 1426881987,
   1925078388, 2162078206, 2614888103, 3248222580, 3835390401, 4022224774,
   264347078, 604807628, 770255983, 1249150122, 1555081692, 1996064986,
   2554220882, 2821834349, 2952996808, 3210313671, 3336571891, 3584528711,
   113926993, 338241895, 666307205, 773529912, 1294757372, 1396182291,
   1695183700, 1986661051, 2177026350, 2456956037, 2730485921, 2820302411,
   3259730800, 3345764771, 3516065817, 3600352804, 4094571909, 275423344,
   430227734, 506948616, 659060556, 883997877, 958139571, 1322822218,
   1537002063, 1747873779, 1955562222, 2024104815, 2227730452, 2361852424,
   2428436474, 2756734187, 3204031479, 3329325298]

/-- SHA-256 initial hash state. -/
def shaH0 : List Nat :=
  [1779033703, 3144134277, 1013904242, 2773480762,
   1359893119, 2600822924, 528734635, 1541459225]

/-- Big-endian 4-byte groups to 32-bit words. -/
def bytesToWords : List Nat → List Nat
  | b0 :: b1 :: b2 :: b3 :: rest => (((b0 * 256 + b1) * 256 + b2) * 256 + b3) :: bytesToWords rest
  | _ => []

/-- Extend the 16 block words to the 64-entry message schedule. -/
def shaSchedule (ws : Array Nat) : Array Nat :=
  (List.range 48).foldl
    (fun a i =>
      let t := i + 16
      a.push (w32 (smallSigma1 (a.getD (t - 2) 0) + a.getD (t - 7) 0 +
                   smallSigma0 (a.getD (t - 15) 0) + a.getD (t - 16) 0)))
    ws

/-- One SHA-256 compression round. -/
def shaRound (ws : Array Nat) (st : Nat × Nat × Nat × Nat × Nat × Nat × Nat × Nat)
    (t : Nat) : Nat × Nat × Nat × Nat × Nat × Nat × Nat × Nat :=
  match st with
  | (a, b, c, d, e, f, g, h) =>
    let t1 := w32 (h + bigSigma1 e + shaCh e f g + shaK.getD t 0 + ws.getD t 0)
    let t2 := w32 (bigSigma0 a + shaMaj a b c)
    (w32 (t1 + t2), a, b, c, w32 (d + t1), e, f, g)

/-- Compress one 64-byte block into the hash state. -/
def shaCompress (hs : List Nat) (block : List Nat) : List Nat :=
  let ws := shaSchedule (bytesToWords block).toArray
  let st0 := (hs.getD 0 0, hs.getD 1 0, hs.getD 2 0, hs.getD 3 0,
              hs.getD 4 0, hs.getD 5 0, hs.getD 6 0, hs.getD 7 0)
  match (List.range 64).foldl (shaRound ws) st0 with
  | (a, b, c, d, e, f, g, h) =>
    List.zipWith (fun x y => w32 (x + y)) hs [a, b, c, d, e, f, g, h]

/-- Split a byte list into 64-byte blocks (fuel-structured so that it
reduces definitionally; the fuel `l.length` always suffices since every
step consumes at least one byte). -/
def chunk64Fuel : Nat → List Nat → List (List Nat)
  | _, [] => []
  | 0, _ => []
  | fuel + 1, c :: rest => ((c :: rest).take 64) :: chunk64Fuel fuel ((c :: rest).drop 64)

/-- Split a byte list into 64-byte blocks. -/
def chunk64 (l : List Nat) : List (List Nat) := chunk64Fuel l.length l

/-- The 8-byte big-endian bit-length trailer of SHA-256 padding. -/
def shaLenBytes (bitLen : Nat) : List Nat :=
  (List.range 8).map (fun i => (bitLen >>> ((7 - i) * 8)) % 256)

/-- SHA-256 padding: `0x80`, zeros to 56 mod 64, then the bit length. -/
def shaPad (msg : List Nat) : List Nat :=
  let zeros := (55 + 64 - msg.length % 64) % 64
  msg ++ 128 :: (List.replicate zeros 0 ++ shaLenBytes (8 * msg.length))

/-- SHA-256 digest of a byte list, as eight 32-bit words. -/
def sha256Words (msg : List Nat) : List Nat :=
  (chunk64 (shaPad msg)).foldl shaCompress shaH0

def hexAlphabet : List Char := "0123456789abcdef".data

def nibbleHex (n : Nat) : Char := hexAlphabet.getD n 'x'

/-- Lowercase hex rendering of one 32-bit word, 8 digits. -/
def wordHex (w : Nat) : List Char :=
  (List.range 8).map (fun i => nibbleHex ((w >>> ((7 - i) * 4)) % 16))

/-- `hashlib.sha256(bytes).hexdigest()`. -/
def sha256Hex (msg : List Nat) : String :=
  ⟨((sha256Words msg).map wordHex).flatten⟩

/-- Python `str.encode()`: UTF-8 bytes of a string. -/
def utf8Char (c : Char) : List Nat :=
  let n := c.toNat
  if n < 128 then [n]
  else if n < 2048 then [192 + n / 64, 128 + n % 64]
  else if n < 65536 then [224 + n / 4096, 128 + n / 64 % 64, 128 + n % 64]
  else [240 + n / 262144, 128 + n / 4096 % 64, 128 + n / 64 % 64, 128 + n % 64]

def utf8Encode (s : String) : List Nat := (s.data.map utf8Char).flatten

/-- `hashlib.sha256(x.encode()).hexdigest()`. -/
def sha256HexOfString (s : String) : String := sha256Hex (utf8Encode s)

/-- Python `s[:n]` by code points. -/
def strTake (s : String) (n : Nat) : String := ⟨s.data.take n⟩

/-! ### GitSource.resolve: cache key, cache path, fetch decision -/

/-- pathlib `a / b` with a string right operand: an absolute right operand
replaces the left, otherwise the parts are joined with `/`. -/
def pyPathJoin (a b : String) : String :=
  if pyStartsWith b "/" then b else a ++ "/" ++ b

/-- The filesystem facts `GitSource.resolve` consults: `Path.exists()` and
`any(path.glob("**/*.py"))`. -/
structure FS where
  pathExists : String → Bool
  hasPyFiles : String → Bool

/-- `GitSource._is_valid_cache`: `any(cache_path.glob("**/*.py"))`. -/
def GitSource.isValidCache (fs : FS) (cachePath : String) : Bool :=
  fs.hasPyFiles cachePath

/-- `InstallError` raised by `GitSource.resolve`: either the download command
failed (`Failed to download <url>@<ref>`) or the final path is missing after
the download (`Subdirectory not found after download`). -/
inductive InstallErr where
  | downloadFailed (url ref : String)
  | subdirectoryNotFound (subdirectory : Option String)
deriving DecidableEq

/-- `hashlib.sha256(f"{url}@{ref}".encode()).hexdigest()[:12]`. -/
def GitSource.cacheKey (g : GitSource) : String :=
  strTake (sha256HexOfString (g.url ++ "@" ++ g.ref)) 12

/-- `cache_path = self.cache_dir / cache_key / self.ref`. -/
def GitSource.cachePathOf (g : GitSource) (cacheDir : String) : String :=
  pyPathJoin (pyPathJoin cacheDir g.cacheKey) g.ref

/-- `final_path = cache_path / self.subdirectory if self.subdirectory else
cache_path` (Python truthiness: `None` and `""` both fall back). -/
def GitSource.finalPathOf (g : GitSource) (cacheDir : String) : String :=
  match g.subdirectory with
  | some d => if d = "" then g.cachePathOf cacheDir else pyPathJoin (g.cachePathOf cacheDir) d
  | none => g.cachePathOf cacheDir

/-- `GitSource.resolve`, with the filesystem passed explicitly and the fetch
collaborator (`_download_via_uv`) modelled as a function from the target
directory to either a `CalledProcessError` or the filesystem state after the
download.  The second component counts fetch collaborator invocations. -/
def GitSource.resolveWith (g : GitSource) (cacheDir : String) (fs : FS)
    (fetch : String → Except Unit FS) : Except InstallErr String × Nat :=
  let cache_path := g.cachePathOf cacheDir
  let final_path := g.finalPathOf cacheDir
  if fs.pathExists cache_path && GitSource.isValidCache fs cache_path then
    (.ok final_path, 0)
  else
    match fetch cache_path with
    | .error _ => (.error (.downloadFailed g.url g.ref), 1)
    | .ok fs2 =>
      if fs2.pathExists final_path = false then
        (.error (.subdirectoryNotFound g.subdirectory), 1)
      else (.ok final_path, 1)

/-! ### StandardModuleSourceResolver -/

/-- The resolver's result sources: `FileSource` (already canonicalized path),
`GitSource`, `PackageSource`. -/
inductive ModuleSource where
  | file (path : String)
  | git (g : GitSource)
  | pkg (packageName : String)
deriving DecidableEq

/-- A descriptor handed to `_parse_source`: either a string URI or a dict
(the MCP-aligned object form), whose relevant string-valued keys are
modelled as optional fields. -/
inductive Descriptor where
  | str (s : String)
  | record (sourceType url ref subdirectory path name : Option String)
deriving DecidableEq

/-- The resolver's injected collaborators and ambient effects:
environment lookup, optional workspace dir, optional settings and collection
providers, the filesystem queries used by `_check_workspace`, package
metadata lookup (`importlib.metadata.distribution`), and `Path.resolve()`
canonicalization. -/
structure ResolverCtx where
  env : String → Option String
  workspaceDir : Option String
  settingsProvider : Option (String → Option Descriptor)
  collectionProvider : Option (String → Option String)
  pathExists : String → Bool
  isFile : String → Bool
  hasPyFiles : String → Bool
  distExists : String → Bool
  resolvePath : String → String

/-- Python truthiness filter on an optional string: `None` and `""` falsy. -/
def optTruthy : Option String → Option String
  | some v => if v = "" then none else some v
  | none => none

/-- Python `module_id.upper()` (ASCII case mapping; module ids are ASCII
tokens). -/
def pyUpper (s : String) : String := ⟨s.data.map Char.toUpper⟩

/-- Python `s.replace("-", "_")` (character-wise, as both operands are single
characters). -/
def pyReplaceDashUnderscore (s : String) : String :=
  ⟨s.data.map (fun c => if c = '-' then '_' else c)⟩

/-- `f"AMPLIFIER_MODULE_{module_id.upper().replace('-', '_')}"`. -/
def envKey (module_id : String) : String :=
  "AMPLIFIER_MODULE_" ++ pyReplaceDashUnderscore (pyUpper module_id)

/-- `FileSource.__init__` on a string: strip a `file://` prefix if present,
then canonicalize (`Path.resolve()`). -/
def mkFileSourceFromStr (resolvePath : String → String) (s : String) : ModuleSource :=
  .file (resolvePath (if pyStartsWith s "file://" then pyDrop s 7 else s))

/-- `StandardModuleSourceResolver._parse_source`. -/
def parseSource (ctx : ResolverCtx) (source : Descriptor) (module_id : String) :
    Except ResolveErr ModuleSource :=
  match source with
  | .record sourceType url ref sub path name =>
    if sourceType = some "git" then
      match url with
      | some u => .ok (.git ⟨u, ref.getD "main", sub⟩)
      | none => .error (.keyError "url")
    else if sourceType = some "file" then
      match path with
      | some p => .ok (mkFileSourceFromStr ctx.resolvePath p)
      | none => .error (.keyError "path")
    else if sourceType = some "package" then
      match name with
      | some n => .ok (.pkg n)
      | none => .error (.keyError "name")
    else .error (.invalidSourceType sourceType module_id)
  | .str s =>
    if pyStartsWith s "git+" then (GitSource.from_uri s).map .git
    else if pyStartsWith s "file://" || pyStartsWith s "/" || pyStartsWith s "." then
      .ok (mkFileSourceFromStr ctx.resolvePath s)
    else .ok (.pkg s)

/-- `_is_empty_submodule`: a `.git` marker file but no Python files. -/
def isEmptySubmodule (ctx : ResolverCtx) (path : String) : Bool :=
  ctx.pathExists (pyPathJoin path ".git") && ctx.isFile (pyPathJoin path ".git") &&
    !(ctx.hasPyFiles path)

/-- `StandardModuleSourceResolver._check_workspace`. -/
def checkWorkspace (ctx : ResolverCtx) (module_id : String) : Option ModuleSource :=
  match ctx.workspaceDir with
  | none => none
  | some wd =>
    let workspace_path := pyPathJoin wd module_id
    if ctx.pathExists workspace_path = false then none
    else if isEmptySubmodule ctx workspace_path then none
    else if ctx.hasPyFiles workspace_path = false then none
    else some (.file (ctx.resolvePath workspace_path))

/-- The `amplifier-module-<id>` fallback package name. -/
def convName (module_id : String) : String := "amplifier-module-" ++ module_id

/-- The `ModuleResolutionError` message `_resolve_package` raises when both
package lookups fail, translated from the f-string (same string value; the
literal segments are split at the embedded newlines so that the line
decomposition below is definitional). -/
def notFoundMessage (workspaceDir : Option String) (module_id : String) : String :=
  "Module '" ++ module_id ++ "' not found" ++ "\n" ++
  "" ++ "\n" ++
  "Resolution attempted:" ++ "\n" ++
  ("  1. Environment: " ++ envKey module_id ++ " (not set)") ++ "\n" ++
  ("  2. Workspace: " ++ (match workspaceDir with
    | some wd => pyPathJoin wd module_id
    | none => "N/A") ++ " (not found)") ++ "\n" ++
  "  3. Settings: (no entry)" ++ "\n" ++
  "  4. Collections: (no registered module)" ++ "\n" ++
  "  5. Profile: (no source specified)" ++ "\n" ++
  ("  6. Package: Tried '" ++ module_id ++ "' and '" ++ convName module_id ++
    "' (neither installed)") ++ "\n" ++
  "" ++ "\n" ++
  "Suggestions:" ++ "\n" ++
  "  - Add source to profile: source: git+https://..." ++ "\n" ++
  "  - Add source override to settings" ++ "\n" ++
  "  - Install package: uv pip install <package-name>" ++ "\n" ++
  "  - Install collection with module: amplifier collection add <collection-url>"

/-- The line decomposition of `notFoundMessage` (joined with `"\n"`): three
header lines, the six per-layer lines, and the suggestion block. -/
def notFoundLines (workspaceDir : Option String) (module_id : String) : List String :=
  ["Module '" ++ module_id ++ "' not found",
   "",
   "Resolution attempted:",
   "  1. Environment: " ++ envKey module_id ++ " (not set)",
   "  2. Workspace: " ++ (match workspaceDir with
     | some wd => pyPathJoin wd module_id
     | none => "N/A") ++ " (not found)",
   "  3. Settings: (no entry)",
   "  4. Collections: (no registered module)",
   "  5. Profile: (no source specified)",
   "  6. Package: Tried '" ++ module_id ++ "' and '" ++ convName module_id ++
     "' (neither installed)",
   "",
   "Suggestions:",
   "  - Add source to profile: source: git+https://...",
   "  - Add source override to settings",
   "  - Install package: uv pip install <package-name>",
   "  - Install collection with module: amplifier collection add <collection-url>"]

/-- `StandardModuleSourceResolver._resolve_package`: exact id first, the
convention name second, else `ModuleResolutionError`. -/
def resolvePackage (ctx : ResolverCtx) (module_id : String) : Except ResolveErr ModuleSource :=
  if ctx.distExists module_id then .ok (.pkg module_id)
  else if ctx.distExists (convName module_id) then .ok (.pkg (convName module_id))
  else .error (.notFound (notFoundMessage ctx.workspaceDir module_id))

/-- Settings layer: `self.settings_provider.get_module_sources()[module_id]`
when the provider is present and the key is in the mapping. -/
def settingsLookup (ctx : ResolverCtx) (module_id : String) : Option Descriptor :=
  match ctx.settingsProvider with
  | some getSources => getSources module_id
  | none => none

/-- Collection layer: `self.collection_provider.get_collection_modules()[module_id]`. -/
def collectionLookup (ctx : ResolverCtx) (module_id : String) : Option String :=
  match ctx.collectionProvider with
  | some getModules => getModules module_id
  | none => none

/-- `StandardModuleSourceResolver.resolve_with_layer`: the six layers in
source order, each `return` short-circuiting the rest. -/
def resolve_with_layer (ctx : ResolverCtx) (module_id : String) (profile_hint : Option String) :
    Except ResolveErr (ModuleSource × String) :=
  match optTruthy (ctx.env (envKey module_id)) with
  | some env_value => (parseSource ctx (.str env_value) module_id).map (fun s => (s, "env"))
  | none =>
    match (if ctx.workspaceDir.isSome then checkWorkspace ctx module_id else none) with
    | some workspace_source => .ok (workspace_source, "workspace")
    | none =>
      match settingsLookup ctx module_id with
      | some d => (parseSource ctx d module_id).map (fun s => (s, "settings"))
      | none =>
        match collectionLookup ctx module_id with
        | some module_path => .ok (.file (ctx.resolvePath module_path), "collection")
        | none =>
          match optTruthy profile_hint with
          | some p => (parseSource ctx (.str p) module_id).map (fun s => (s, "profile"))
          | none => (resolvePackage ctx module_id).map (fun s => (s, "package"))

/-- `StandardModuleSourceResolver.resolve`: drop the layer name. -/
def resolverResolve (ctx : ResolverCtx) (module_id : String) (profile_hint : Option String) :
    Except ResolveErr ModuleSource :=
  (resolve_with_layer ctx module_id profile_hint).map (fun p => p.1)

/-- A concrete resolver context used by the witnesses: no environment
variables set, a workspace at `/ws` whose directories exist and contain
Python files (and are not submodule placeholders), a settings provider with
an entry for `"mod"`, no collection provider, no installed distributions,
and identity canonicalization. -/
def ctxW : ResolverCtx where
  env := fun _ => none
  workspaceDir := some "/ws"
  settingsProvider := some (fun k => if k = "mod" then some (.str "pkgname") else none)
  collectionProvider := none
  pathExists := fun _ => true
  isFile := fun _ => false
  hasPyFiles := fun _ => true
  distExists := fun _ => false
  resolvePath := fun p => p

/-- A concrete resolver context used by the C5 witness: like `ctxW` but with
no workspace and a settings entry for `"mod"` whose record descriptor has
type `git` and no `url`. -/
def ctxS : ResolverCtx where
  env := fun _ => none
  workspaceDir := none
  settingsProvider := some (fun k =>
    if k = "mod" then some (.record (some "git") none none none none none) else none)
  collectionProvider := none
  pathExists := fun _ => true
  isFile := fun _ => false
  hasPyFiles := fun _ => true
  distExists := fun _ => false
  resolvePath := fun p => p

/-- A concrete filesystem for the C9 witness: only the cache path of the
example GitSource exists (in particular the final subdirectory path does
not), and every directory "contains" Python files. -/
def fs9 : FS where
  pathExists := fun p =>
    decide (p = GitSource.cachePathOf ⟨"https://h/o/r", "v1", some "p"⟩ "/cache")
  hasPyFiles := fun _ => true

/-! ### Lemmas about the splitting primitives -/

theorem splitOnce_nil_of_ne {sep : List Char} (h : sep ≠ []) : splitOnce sep [] = none := by
  cases sep with
  | nil => exact absurd rfl h
  | cons c t => rfl

theorem splitOnce_cons_eq_none_iff (sep : List Char) (c : Char) (t : List Char) :
    splitOnce sep (c :: t) = none ↔
      sep.isPrefixOf (c :: t) = false ∧ splitOnce sep t = none := by
  rw [splitOnce]
  cases hp : sep.isPrefixOf (c :: t) with
  | false =>
    simp only [Bool.false_eq_true, if_false, true_and]
    cases hs : splitOnce sep t with
    | none => simp
    | some ab => cases ab with | mk a b => simp
  | true => simp

theorem splitOnce_some_reconstruct {sep s a b : List Char}
    (h : splitOnce sep s = some (a, b)) : s = a ++ sep ++ b := by
  induction s generalizing a b with
  | nil =>
    rw [splitOnce] at h
    split at h
    · rename_i hp
      have hsep : sep = [] := by
        cases sep with
        | nil => rfl
        | cons x xs => simp [List.isPrefixOf] at hp
      simp only [Option.some.injEq, Prod.mk.injEq] at h
      obtain ⟨ha, hb⟩ := h
      subst hsep
      subst ha
      subst hb
      rfl
    · exact absurd h (by simp)
  | cons c rest ih =>
    rw [splitOnce] at h
    split at h
    · rename_i hp
      obtain ⟨w, hw⟩ := List.isPrefixOf_iff_prefix.mp hp
      simp only [Option.some.injEq, Prod.mk.injEq] at h
      obtain ⟨ha, hb⟩ := h
      subst ha
      subst hb
      rw [← hw, List.drop_left]
      simp
    · rename_i hp
      cases hs : splitOnce sep rest with
      | none => rw [hs] at h; exact absurd h (by simp)
      | some ab =>
        obtain ⟨a2, b2⟩ := ab
        rw [hs] at h
        simp only [Option.some.injEq, Prod.mk.injEq] at h
        obtain ⟨ha, hb⟩ := h
        subst hb
        rw [← ha, ih hs]
        simp

theorem splitOnce_some_left_none {sep s a b : List Char} (hsep : sep ≠ [])
    (h : splitOnce sep s = some (a, b)) : splitOnce sep a = none := by
  induction s generalizing a b with
  | nil =>
    rw [splitOnce] at h
    split at h
    · rename_i hp
      cases sep with
      | nil => exact absurd rfl hsep
      | cons x xs => simp [List.isPrefixOf] at hp
    · exact absurd h (by simp)
  | cons c rest ih =>
    rw [splitOnce] at h
    split at h
    · rename_i hp
      simp only [Option.some.injEq, Prod.mk.injEq] at h
      obtain ⟨ha, hb⟩ := h
      subst ha
      exact splitOnce_nil_of_ne hsep
    · rename_i hp
      cases hs : splitOnce sep rest with
      | none => rw [hs] at h; exact absurd h (by simp)
      | some ab =>
        obtain ⟨a2, b2⟩ := ab
        rw [hs] at h
        simp only [Option.some.injEq, Prod.mk.injEq] at h
        obtain ⟨ha, hb⟩ := h
        subst hb
        rw [← ha]
        rw [splitOnce_cons_eq_none_iff]
        constructor
        · cases hq : sep.isPrefixOf (c :: a2) with
          | false => rfl
          | true =>
            exfalso
            apply hp
            have hpre : (c :: a2) <+: (c :: rest) := by
              have := splitOnce_some_reconstruct hs
              exact ⟨sep ++ b2, by simp [this]⟩
            exact List.isPrefixOf_iff_prefix.mpr
              ((List.isPrefixOf_iff_prefix.mp hq).trans hpre)
        · exact ih hs

theorem splitOnce_append_left_none {sep u v : List Char}
    (h : splitOnce sep (u ++ v) = none) : splitOnce sep u = none := by
  induction u with
  | nil =>
    rcases sep with _ | ⟨x, xs⟩
    · rw [List.nil_append] at h
      cases v with
      | nil => exact h
      | cons c t => rw [splitOnce] at h; simp [List.isPrefixOf] at h
    · exact splitOnce_nil_of_ne (by simp)
  | cons c u' ih =>
    rw [List.cons_append] at h
    rw [splitOnce_cons_eq_none_iff] at h
    obtain ⟨hp, hrest⟩ := h
    rw [splitOnce_cons_eq_none_iff]
    refine ⟨?_, ih hrest⟩
    cases hq : sep.isPrefixOf (c :: u') with
    | false => rfl
    | true =>
      exfalso
      have : sep.isPrefixOf (c :: u' ++ v) = true := by
        refine List.isPrefixOf_iff_prefix.mpr ?_
        exact (List.isPrefixOf_iff_prefix.mp hq).trans ⟨v, by simp⟩
      rw [List.cons_append] at this
      rw [this] at hp
      exact Bool.noConfusion hp

theorem splitOnce_append_right_none {sep u v : List Char}
    (h : splitOnce sep (u ++ v) = none) : splitOnce sep v = none := by
  induction u with
  | nil => exact h
  | cons c u' ih =>
    rw [List.cons_append, splitOnce_cons_eq_none_iff] at h
    exact ih h.2

theorem rsplitChar_eq_none_iff (ch : Char) (s : List Char) :
    rsplitChar ch s = none ↔ ch ∉ s := by
  induction s with
  | nil => simp [rsplitChar]
  | cons c rest ih =>
    rw [rsplitChar]
    cases hs : rsplitChar ch rest with
    | none =>
      have hmem : ch ∉ rest := ih.mp hs
      by_cases hcc : c = ch
      · subst hcc
        simp
      · rw [if_neg hcc]
        constructor
        · intro _ hin
          rcases List.mem_cons.mp hin with h1 | h2
          · exact hcc h1.symm
          · exact hmem h2
        · intro _
          rfl
    | some ab =>
      obtain ⟨a, b⟩ := ab
      have hmem : ch ∈ rest := by
        by_contra hmem
        rw [ih.mpr hmem] at hs
        exact Option.noConfusion hs
      constructor
      · intro h
        exact absurd h (by simp)
      · intro h
        exact (h (List.mem_cons_of_mem c hmem)).elim

theorem rsplitChar_append {ch : Char} {r : List Char} (h : ch ∉ r) (u : List Char) :
    rsplitChar ch (u ++ ch :: r) = some (u, r) := by
  induction u with
  | nil =>
    rw [List.nil_append, rsplitChar, (rsplitChar_eq_none_iff ch r).mpr h]
    simp
  | cons c u2 ih =>
    rw [List.cons_append, rsplitChar, ih]

theorem rsplitChar_some_reconstruct {ch : Char} {s a b : List Char}
    (h : rsplitChar ch s = some (a, b)) : s = a ++ ch :: b := by
  induction s generalizing a b with
  | nil => exact absurd h (by simp [rsplitChar])
  | cons c rest ih =>
    rw [rsplitChar] at h
    cases hs : rsplitChar ch rest with
    | none =>
      simp only [hs] at h
      split at h
      · rename_i hc
        simp only [Option.some.injEq, Prod.mk.injEq] at h
        obtain ⟨ha, hb⟩ := h
        subst ha
        subst hb
        subst hc
        rfl
      · exact absurd h (by simp)
    | some ab =>
      obtain ⟨a2, b2⟩ := ab
      simp only [hs] at h
      simp only [Option.some.injEq, Prod.mk.injEq] at h
      obtain ⟨ha, hb⟩ := h
      subst hb
      rw [← ha, List.cons_append, ← ih hs]

theorem rsplitChar_some_right {ch : Char} {s a b : List Char}
    (h : rsplitChar ch s = some (a, b)) : ch ∉ b := by
  induction s generalizing a b with
  | nil => exact absurd h (by simp [rsplitChar])
  | cons c rest ih =>
    rw [rsplitChar] at h
    cases hs : rsplitChar ch rest with
    | none =>
      simp only [hs] at h
      split at h
      · rename_i hc
        simp only [Option.some.injEq, Prod.mk.injEq] at h
        obtain ⟨ha, hb⟩ := h
        subst hb
        exact (rsplitChar_eq_none_iff ch rest).mp hs
      · exact absurd h (by simp)
    | some ab =>
      obtain ⟨a2, b2⟩ := ab
      simp only [hs] at h
      simp only [Option.some.injEq, Prod.mk.injEq] at h
      obtain ⟨ha, hb⟩ := h
      subst hb
      exact ih hs

theorem sep_getElem_of_append_eq_cons {sep w p y : List Char} {x : Char}
    (h : sep ++ w = p ++ x :: y) (hl : p.length < sep.length) :
    sep[p.length]? = some x := by
  have hidx : (sep ++ w)[p.length]? = (p ++ x :: y)[p.length]? := by rw [h]
  rw [List.getElem?_append_left hl] at hidx
  rw [List.getElem?_append_right (Nat.le_refl p.length)] at hidx
  simpa using hidx

theorem isPrefixOf_false_of_append {sep p : List Char} {x : Char} {y : List Char}
    (hx : ∀ k, k < sep.length → sep[k]? ≠ some x)
    (hp : sep.isPrefixOf p = false) :
    sep.isPrefixOf (p ++ x :: y) = false := by
  cases hq : sep.isPrefixOf (p ++ x :: y) with
  | false => rfl
  | true =>
    exfalso
    obtain ⟨w, hw⟩ := List.isPrefixOf_iff_prefix.mp hq
    rcases Nat.lt_or_ge p.length sep.length with hl | hl
    · exact hx p.length hl (sep_getElem_of_append_eq_cons hw hl)
    · have : sep <+: p :=
        List.prefix_of_prefix_length_le ⟨w, hw⟩ (List.prefix_append p (x :: y)) hl
      rw [List.isPrefixOf_iff_prefix.mpr this] at hp
      exact Bool.noConfusion hp

theorem splitOnce_append_char_none {sep u r : List Char} {x : Char}
    (hsep : sep ≠ [])
    (hx : ∀ k, k < sep.length → sep[k]? ≠ some x)
    (hu : splitOnce sep u = none) (hr : splitOnce sep r = none) :
    splitOnce sep (u ++ x :: r) = none := by
  induction u with
  | nil =>
    rw [List.nil_append, splitOnce_cons_eq_none_iff]
    refine ⟨?_, hr⟩
    cases hq : sep.isPrefixOf (x :: r) with
    | false => rfl
    | true =>
      exfalso
      obtain ⟨w, hw⟩ := List.isPrefixOf_iff_prefix.mp hq
      have h0 : sep[0]? = some x := by
        cases sep with
        | nil => exact absurd rfl hsep
        | cons s0 ss =>
          have : s0 = x := by
            have := congrArg (fun l => l[0]?) hw
            simpa using this
          simp [this]
      have hlen : 0 < sep.length := by
        cases sep with
        | nil => exact absurd rfl hsep
        | cons s0 ss => simp
      exact hx 0 hlen h0
  | cons c u2 ih =>
    rw [List.cons_append] at *
    rw [splitOnce_cons_eq_none_iff] at hu
    obtain ⟨hpc, hu2⟩ := hu
    rw [splitOnce_cons_eq_none_iff]
    refine ⟨?_, ih hu2⟩
    rw [← List.cons_append]
    exact isPrefixOf_false_of_append (y := r)
      (fun k hk hs => hx k hk hs) hpc

theorem isPrefixOf_false_of_append_pos {sep p : List Char} {x : Char} {y : List Char}
    (hx : ∀ k, 0 < k → k < sep.length → sep[k]? ≠ some x)
    (hp : sep.isPrefixOf p = false) (hne : p ≠ []) :
    sep.isPrefixOf (p ++ x :: y) = false := by
  cases hq : sep.isPrefixOf (p ++ x :: y) with
  | false => rfl
  | true =>
    exfalso
    obtain ⟨w, hw⟩ := List.isPrefixOf_iff_prefix.mp hq
    rcases Nat.lt_or_ge p.length sep.length with hl | hl
    · have hp0 : 0 < p.length := List.length_pos.mpr hne
      exact hx p.length hp0 hl (sep_getElem_of_append_eq_cons hw hl)
    · have : sep <+: p :=
        List.prefix_of_prefix_length_le ⟨w, hw⟩ (List.prefix_append p (x :: y)) hl
      rw [List.isPrefixOf_iff_prefix.mpr this] at hp
      exact Bool.noConfusion hp

theorem splitOnce_seam {m : Char} {ms : List Char} (hm : m ∉ ms) {u : List Char} (d : List Char)
    (hu : splitOnce (m :: ms) u = none) :
    splitOnce (m :: ms) (u ++ (m :: ms) ++ d) = some (u, d) := by
  induction u with
  | nil =>
    rw [List.nil_append]
    show splitOnce (m :: ms) (m :: (ms ++ d)) = some ([], d)
    rw [splitOnce]
    have hpre : (m :: ms).isPrefixOf (m :: (ms ++ d)) = true := by
      refine List.isPrefixOf_iff_prefix.mpr ?_
      exact ⟨d, by simp⟩
    rw [if_pos hpre]
    congr 1
    congr 1
    show ((m :: ms) ++ d).drop (m :: ms).length = d
    exact List.drop_left _ _
  | cons c u2 ih =>
    rw [splitOnce_cons_eq_none_iff] at hu
    obtain ⟨hpc, hu2⟩ := hu
    show splitOnce (m :: ms) (c :: (u2 ++ (m :: ms) ++ d)) = some (c :: u2, d)
    rw [splitOnce]
    have hassoc : c :: (u2 ++ (m :: ms) ++ d) = (c :: u2) ++ (m :: (ms ++ d)) := by simp
    have hpf : (m :: ms).isPrefixOf (c :: (u2 ++ (m :: ms) ++ d)) = false := by
      rw [hassoc]
      refine isPrefixOf_false_of_append_pos ?_ hpc (by simp)
      intro k hk0 hk hs
      cases k with
      | zero => exact absurd hk0 (Nat.lt_irrefl 0)
      | succ j =>
        rw [List.getElem?_cons_succ] at hs
        exact hm (List.getElem?_mem hs)
    rw [hpf]
    simp only [Bool.false_eq_true, if_false]
    rw [ih hu2]

theorem pyStartsWith_append (p s : String) : pyStartsWith (p ++ s) p = true := by
  simp [pyStartsWith]

theorem from_uri_git_append (Y : String) :
    GitSource.from_uri ("git+" ++ Y) =
      (match splitOnce subdirMarker Y.data with
       | some (before, after) => fromUriTail before (some ⟨after⟩)
       | none => fromUriTail Y.data none) := by
  have hd : ("git+" ++ Y).data.drop 4 = Y.data := by
    rw [String.data_append]
    exact List.drop_left' rfl
  rw [GitSource.from_uri, pyStartsWith_append, hd]
  simp

theorem fromUriTail_at {u r : String} (hr : rsplitChar '@' r.data = none) (sub : Option String) :
    fromUriTail (u.data ++ '@' :: r.data) sub = .ok ⟨u, r, sub⟩ := by
  rw [fromUriTail, rsplitChar_append ((rsplitChar_eq_none_iff '@' r.data).mp hr) u.data]

theorem fromUriTail_noAt {u : String} (hu : rsplitChar '@' u.data = none) (sub : Option String) :
    fromUriTail u.data sub = .ok ⟨u, "main", sub⟩ := by
  rw [fromUriTail, hu]

theorem splitOnce_marker_seam {U : List Char} (hu : splitOnce subdirMarker U = none)
    (D : List Char) :
    splitOnce subdirMarker (U ++ subdirMarker ++ D) = some (U, D) := by
  have hm : ('#' : Char) ∉ "subdirectory=".data := by decide
  exact splitOnce_seam hm D hu

theorem splitOnce_marker_join {U R : List Char} (hu : splitOnce subdirMarker U = none)
    (hr : splitOnce subdirMarker R = none) :
    splitOnce subdirMarker (U ++ '@' :: R) = none := by
  refine splitOnce_append_char_none (by decide) ?_ hu hr
  decide

theorem from_uri_append_all (u r d : String)
    (hu : splitOnce subdirMarker u.data = none)
    (hrm : splitOnce subdirMarker r.data = none)
    (hra : rsplitChar '@' r.data = none) :
    GitSource.from_uri ("git+" ++ u ++ "@" ++ r ++ "#subdirectory=" ++ d) =
      .ok ⟨u, r, some d⟩ := by
  have hsplit : splitOnce subdirMarker ((u.data ++ '@' :: r.data) ++ subdirMarker ++ d.data) =
      some (u.data ++ '@' :: r.data, d.data) :=
    splitOnce_marker_seam (splitOnce_marker_join hu hrm) d.data
  have hdata : (u ++ "@" ++ r ++ "#subdirectory=" ++ d).data =
      (u.data ++ '@' :: r.data) ++ subdirMarker ++ d.data := by
    simp only [String.data_append, List.append_assoc, List.cons_append]
    rfl
  rw [show "git+" ++ u ++ "@" ++ r ++ "#subdirectory=" ++ d =
      "git+" ++ (u ++ "@" ++ r ++ "#subdirectory=" ++ d) by simp [String.append_assoc]]
  rw [from_uri_git_append, hdata, hsplit]
  exact fromUriTail_at hra (some d)

theorem from_uri_append_noSub (u r : String)
    (hu : splitOnce subdirMarker u.data = none)
    (hrm : splitOnce subdirMarker r.data = none)
    (hra : rsplitChar '@' r.data = none) :
    GitSource.from_uri ("git+" ++ u ++ "@" ++ r) = .ok ⟨u, r, none⟩ := by
  have hdata : (u ++ "@" ++ r).data = u.data ++ '@' :: r.data := by
    simp only [String.data_append, List.append_assoc]
    rfl
  rw [show "git+" ++ u ++ "@" ++ r = "git+" ++ (u ++ "@" ++ r) by simp [String.append_assoc]]
  rw [from_uri_git_append, hdata, splitOnce_marker_join hu hrm]
  exact fromUriTail_at hra none

theorem from_uri_append_noAt (u d : String)
    (hu : splitOnce subdirMarker u.data = none)
    (hua : rsplitChar '@' u.data = none) :
    GitSource.from_uri ("git+" ++ u ++ "#subdirectory=" ++ d) = .ok ⟨u, "main", some d⟩ := by
  have hdata : (u ++ "#subdirectory=" ++ d).data = u.data ++ subdirMarker ++ d.data := by
    simp only [String.data_append, List.append_assoc]
    rfl
  rw [show "git+" ++ u ++ "#subdirectory=" ++ d = "git+" ++ (u ++ "#subdirectory=" ++ d) by
    simp [String.append_assoc]]
  rw [from_uri_git_append, hdata, splitOnce_marker_seam hu d.data]
  exact fromUriTail_noAt hua (some d)

theorem from_uri_append_plain (u : String)
    (hu : splitOnce subdirMarker u.data = none)
    (hua : rsplitChar '@' u.data = none) :
    GitSource.from_uri ("git+" ++ u) = .ok ⟨u, "main", none⟩ := by
  rw [from_uri_git_append, hu]
  exact fromUriTail_noAt hua none

theorem from_uri_gitUrl_ok (u r : String) (sub : Option String)
    (hu : splitOnce subdirMarker u.data = none)
    (hrm : splitOnce subdirMarker r.data = none)
    (hra : rsplitChar '@' r.data = none)
    (hsub : sub ≠ some "") :
    GitSource.from_uri (GitSource.gitUrl ⟨u, r, sub⟩) = .ok ⟨u, r, sub⟩ := by
  cases sub with
  | none =>
    show GitSource.from_uri ("git+" ++ u ++ "@" ++ r) = .ok ⟨u, r, none⟩
    exact from_uri_append_noSub u r hu hrm hra
  | some dd =>
    have hd : ¬ dd = "" := fun h => hsub (by rw [h])
    simp only [GitSource.gitUrl]
    rw [if_neg hd]
    exact from_uri_append_all u r dd hu hrm hra

theorem marker_ne_nil : subdirMarker ≠ [] := by decide

theorem splitOnce_parts_of_cons_split {uu rr : List Char}
    (hbn : splitOnce subdirMarker (uu ++ '@' :: rr) = none) :
    splitOnce subdirMarker uu = none ∧ splitOnce subdirMarker rr = none := by
  constructor
  · exact splitOnce_append_left_none hbn
  · have h2 : splitOnce subdirMarker ((uu ++ ['@']) ++ rr) = none := by
      have : (uu ++ ['@']) ++ rr = uu ++ '@' :: rr := by simp
      rw [this]
      exact hbn
    exact splitOnce_append_right_none h2

/-- C8: for every well-formed `git+` URI `s` (one that `from_uri` parses
successfully, with a non-empty subdirectory fragment when one is present),
parsing `s`, serializing the resulting `GitSource` back to a descriptor
string, and parsing again yields the same result as parsing `s`:
`from_uri (gitUrl (parse s)) = from_uri s`. -/
theorem claim_c8_round_trip (s : String) (g : GitSource)
    (hparse : GitSource.from_uri s = .ok g)
    (hsub : g.subdirectory ≠ some "") :
    GitSource.from_uri (GitSource.gitUrl g) = GitSource.from_uri s := by
  rw [hparse]
  simp only [GitSource.from_uri] at hparse
  by_cases hpre : pyStartsWith s "git+" = false
  · rw [if_pos hpre] at hparse
    exact absurd hparse (by simp)
  · rw [if_neg hpre] at hparse
    cases hsp : splitOnce subdirMarker (s.data.drop 4) with
    | some ba =>
      obtain ⟨before, after⟩ := ba
      rw [hsp] at hparse
      have hbn : splitOnce subdirMarker before = none :=
        splitOnce_some_left_none marker_ne_nil hsp
      cases hat : rsplitChar '@' before with
      | some ur =>
        obtain ⟨uu, rr⟩ := ur
        simp only [fromUriTail, hat, Except.ok.injEq] at hparse
        subst hparse
        have hrec : before = uu ++ '@' :: rr := rsplitChar_some_reconstruct hat
        rw [hrec] at hbn
        obtain ⟨h1, h2⟩ := splitOnce_parts_of_cons_split hbn
        have h3 : rsplitChar '@' rr = none :=
          (rsplitChar_eq_none_iff '@' rr).mpr (rsplitChar_some_right hat)
        exact from_uri_gitUrl_ok ⟨uu⟩ ⟨rr⟩ (some ⟨after⟩) h1 h2 h3 hsub
      | none =>
        simp only [fromUriTail, hat, Except.ok.injEq] at hparse
        subst hparse
        have h2 : splitOnce subdirMarker ("main" : String).data = none := by decide
        have h3 : rsplitChar '@' ("main" : String).data = none := by decide
        exact from_uri_gitUrl_ok ⟨before⟩ "main" (some ⟨after⟩) hbn h2 h3 hsub
    | none =>
      rw [hsp] at hparse
      cases hat : rsplitChar '@' (s.data.drop 4) with
      | some ur =>
        obtain ⟨uu, rr⟩ := ur
        simp only [fromUriTail, hat, Except.ok.injEq] at hparse
        subst hparse
        have hrec : s.data.drop 4 = uu ++ '@' :: rr := rsplitChar_some_reconstruct hat
        rw [hrec] at hsp
        obtain ⟨h1, h2⟩ := splitOnce_parts_of_cons_split hsp
        have h3 : rsplitChar '@' rr = none :=
          (rsplitChar_eq_none_iff '@' rr).mpr (rsplitChar_some_right hat)
        exact from_uri_gitUrl_ok ⟨uu⟩ ⟨rr⟩ none h1 h2 h3 hsub
      | none =>
        simp only [fromUriTail, hat, Except.ok.injEq] at hparse
        subst hparse
        exact from_uri_gitUrl_ok ⟨s.data.drop 4⟩ "main" none hsp (by decide) (by decide) hsub

/-- C8 witness: the round trip at the concrete URI
`git+https://h/o/r@v1#subdirectory=p`. -/
theorem claim_c8_round_trip_witness :
    GitSource.from_uri "git+https://h/o/r@v1#subdirectory=p" =
      .ok ⟨"https://h/o/r", "v1", some "p"⟩
    ∧ (some "p" : Option String) ≠ some ""
    ∧ GitSource.from_uri (GitSource.gitUrl ⟨"https://h/o/r", "v1", some "p"⟩) =
        GitSource.from_uri "git+https://h/o/r@v1#subdirectory=p" :=
  ⟨rfl, by decide,
    claim_c8_round_trip "git+https://h/o/r@v1#subdirectory=p"
      ⟨"https://h/o/r", "v1", some "p"⟩ rfl (by decide)⟩

/-- C2 counterexample: on `git+u#subdirectory=a#subdirectory=b` the code
splits at the FIRST `#subdirectory=` occurrence (subdirectory is
`a#subdirectory=b`), not at the LAST occurrence as the claim states (which
would give url `u#subdirectory=a` and subdirectory `b`). -/
theorem claim_c2_counterexample :
    GitSource.from_uri "git+u#subdirectory=a#subdirectory=b" =
      .ok ⟨"u", "main", some "a#subdirectory=b"⟩
    ∧ GitSource.fromUriSpecLast "git+u#subdirectory=a#subdirectory=b" =
      .ok ⟨"u#subdirectory=a", "main", some "b"⟩
    ∧ GitSource.mk "u" "main" (some "a#subdirectory=b") ≠
        GitSource.mk "u#subdirectory=a" "main" (some "b") :=
  ⟨rfl, rfl, by decide⟩

/-- C2 (amended): for every string beginning with `git+`, `from_uri` strips
the prefix, splits on the FIRST occurrence of the literal `#subdirectory=`
(subdirectory is everything after it, later occurrences included), then
splits the remainder on the LAST `@` to obtain url and ref (`@` characters
earlier in the URL are kept in the url), with ref defaulting to `"main"`
when no `@` is present; in particular
`from_uri "git+https://h/o/r@v1#subdirectory=p"` yields url `https://h/o/r`,
ref `v1`, subdirectory `p`. -/
theorem claim_c2_amended (u r d : String)
    (hu : splitOnce subdirMarker u.data = none)
    (hrm : splitOnce subdirMarker r.data = none)
    (hra : rsplitChar '@' r.data = none) :
    GitSource.from_uri ("git+" ++ u ++ "@" ++ r ++ "#subdirectory=" ++ d) = .ok ⟨u, r, some d⟩
    ∧ GitSource.from_uri ("git+" ++ u ++ "@" ++ r) = .ok ⟨u, r, none⟩
    ∧ (rsplitChar '@' u.data = none →
        GitSource.from_uri ("git+" ++ u ++ "#subdirectory=" ++ d) = .ok ⟨u, "main", some d⟩)
    ∧ (rsplitChar '@' u.data = none →
        GitSource.from_uri ("git+" ++ u) = .ok ⟨u, "main", none⟩)
    ∧ GitSource.from_uri "git+https://h/o/r@v1#subdirectory=p" =
        .ok ⟨"https://h/o/r", "v1", some "p"⟩ := by
  refine ⟨from_uri_append_all u r d hu hrm hra,
          from_uri_append_noSub u r hu hrm hra,
          fun hua => from_uri_append_noAt u d hu hua,
          fun hua => from_uri_append_plain u hu hua,
          rfl⟩

/-- C2 witness: the amended parse shape at the concrete components
url `https://h/o/r`, ref `v1`, subdirectory `p`. -/
theorem claim_c2_amended_witness :
    splitOnce subdirMarker ("https://h/o/r" : String).data = none
    ∧ splitOnce subdirMarker ("v1" : String).data = none
    ∧ rsplitChar '@' ("v1" : String).data = none
    ∧ GitSource.from_uri ("git+" ++ "https://h/o/r" ++ "@" ++ "v1" ++ "#subdirectory=" ++ "p") =
        .ok ⟨"https://h/o/r", "v1", some "p"⟩ :=
  ⟨rfl, rfl, rfl, (claim_c2_amended "https://h/o/r" "v1" "p" rfl rfl rfl).1⟩

/-- C1: `resolve_with_layer` evaluates the six layers env, workspace,
settings, collection, profile, package strictly in that order and returns the
Source and layer name of the first layer that matches, without consulting or
merging any later layer: each conjunct fixes the result from the first
matching layer alone, for every configuration of the later layers (so if
layer N would match but layer N-1 also matches, the returned layer is N-1). -/
theorem claim_c1_first_matching_layer_wins (ctx : ResolverCtx) (m : String)
    (ph : Option String) :
    (∀ v, optTruthy (ctx.env (envKey m)) = some v →
      resolve_with_layer ctx m ph = (parseSource ctx (.str v) m).map (fun s => (s, "env")))
    ∧ (optTruthy (ctx.env (envKey m)) = none →
       ∀ ws, (if ctx.workspaceDir.isSome then checkWorkspace ctx m else none) = some ws →
       resolve_with_layer ctx m ph = .ok (ws, "workspace"))
    ∧ (optTruthy (ctx.env (envKey m)) = none →
       (if ctx.workspaceDir.isSome then checkWorkspace ctx m else none) = none →
       ∀ dsc, settingsLookup ctx m = some dsc →
       resolve_with_layer ctx m ph = (parseSource ctx dsc m).map (fun s => (s, "settings")))
    ∧ (optTruthy (ctx.env (envKey m)) = none →
       (if ctx.workspaceDir.isSome then checkWorkspace ctx m else none) = none →
       settingsLookup ctx m = none →
       ∀ p, collectionLookup ctx m = some p →
       resolve_with_layer ctx m ph = .ok (.file (ctx.resolvePath p), "collection"))
    ∧ (optTruthy (ctx.env (envKey m)) = none →
       (if ctx.workspaceDir.isSome then checkWorkspace ctx m else none) = none →
       settingsLookup ctx m = none → collectionLookup ctx m = none →
       ∀ p, optTruthy ph = some p →
       resolve_with_layer ctx m ph = (parseSource ctx (.str p) m).map (fun s => (s, "profile")))
    ∧ (optTruthy (ctx.env (envKey m)) = none →
       (if ctx.workspaceDir.isSome then checkWorkspace ctx m else none) = none →
       settingsLookup ctx m = none → collectionLookup ctx m = none →
       optTruthy ph = none →
       resolve_with_layer ctx m ph = (resolvePackage ctx m).map (fun s => (s, "package"))) := by
  refine ⟨?_, ?_, ?_, ?_, ?_, ?_⟩
  · intro v h1
    simp only [resolve_with_layer, h1]
  · intro h1 ws h2
    simp only [resolve_with_layer, h1, h2]
  · intro h1 h2 dsc h3
    simp only [resolve_with_layer, h1, h2, h3]
  · intro h1 h2 h3 p h4
    simp only [resolve_with_layer, h1, h2, h3, h4]
  · intro h1 h2 h3 h4 p h5
    simp only [resolve_with_layer, h1, h2, h3, h4, h5]
  · intro h1 h2 h3 h4 h5
    simp only [resolve_with_layer, h1, h2, h3, h4, h5]

/-- C1 witness: in `ctxW` the env layer does not match, the workspace layer
matches, and the settings layer would also match for `"mod"`; the resolver
returns the workspace result. -/
theorem claim_c1_witness :
    optTruthy (ctxW.env (envKey "mod")) = none
    ∧ (if ctxW.workspaceDir.isSome then checkWorkspace ctxW "mod" else none) =
        some (.file "/ws/mod")
    ∧ settingsLookup ctxW "mod" = some (.str "pkgname")
    ∧ resolve_with_layer ctxW "mod" none = .ok (.file "/ws/mod", "workspace") :=
  ⟨rfl, rfl, rfl,
    (claim_c1_first_matching_layer_wins ctxW "mod" none).2.1 rfl (.file "/ws/mod") rfl⟩

/-- C10: if the environment variable `AMPLIFIER_MODULE_<ID>` is set to the
empty string, the env layer treats it exactly as if the variable were unset:
resolution coincides with resolution in the context whose environment does
not define the variable at all (no parse attempt; fall-through to the later
layers). -/
theorem resolve_with_layer_env_none (ctx : ResolverCtx) (m : String) (ph : Option String)
    (h : optTruthy (ctx.env (envKey m)) = none) :
    resolve_with_layer ctx m ph =
      (match (if ctx.workspaceDir.isSome then checkWorkspace ctx m else none) with
       | some workspace_source => .ok (workspace_source, "workspace")
       | none =>
         match settingsLookup ctx m with
         | some d => (parseSource ctx d m).map (fun s => (s, "settings"))
         | none =>
           match collectionLookup ctx m with
           | some module_path => .ok (.file (ctx.resolvePath module_path), "collection")
           | none =>
             match optTruthy ph with
             | some p => (parseSource ctx (.str p) m).map (fun s => (s, "profile"))
             | none => (resolvePackage ctx m).map (fun s => (s, "package"))) := by
  simp only [resolve_with_layer, h]

theorem claim_c10_empty_env_var_as_unset (ctx : ResolverCtx) (m : String)
    (ph : Option String) (h : ctx.env (envKey m) = some "") :
    resolve_with_layer ctx m ph =
      resolve_with_layer
        { ctx with env := fun k => if k = envKey m then none else ctx.env k } m ph := by
  have e1 : optTruthy (ctx.env (envKey m)) = none := by rw [h]; rfl
  have e2 : optTruthy
      (({ ctx with env := fun k => if k = envKey m then none else ctx.env k } :
        ResolverCtx).env (envKey m)) = none := by
    show optTruthy (if envKey m = envKey m then none else ctx.env (envKey m)) = none
    rw [if_pos rfl]
    rfl
  rw [resolve_with_layer_env_none ctx m ph e1,
      resolve_with_layer_env_none _ m ph e2]
  rfl

/-- C10 witness: `ctxW` with the env var set to `""` resolves exactly as the
env var being absent (and falls through to the workspace layer). -/
theorem claim_c10_witness :
    (({ ctxW with env := fun k => if k = envKey "mod" then some "" else none } :
        ResolverCtx).env (envKey "mod") = some "")
    ∧ resolve_with_layer
        { ctxW with env := fun k => if k = envKey "mod" then some "" else none } "mod" none =
      resolve_with_layer
        { { ctxW with env := fun k => if k = envKey "mod" then some "" else none } with
          env := fun k => if k = envKey "mod" then none else
            ({ ctxW with env := fun k => if k = envKey "mod" then some "" else none } :
              ResolverCtx).env k } "mod" none :=
  ⟨by simp,
    claim_c10_empty_env_var_as_unset
      { ctxW with env := fun k => if k = envKey "mod" then some "" else none } "mod" none
      (by simp)⟩

/-- C5: if a layer matches (a value is present for the module id) but parsing
its descriptor fails, the parse error propagates immediately out of the
resolution and no later layer is consulted (the result is fixed to that error
for every configuration of the later layers); a layer with no value present
is not an error: resolution proceeds exactly as if the settings provider were
absent, resp. as if no profile hint were given.  (The settings layer is the
only layer that can receive a structured-record descriptor, the only
descriptor form whose parse can fail.) -/
theorem claim_c5_parse_error_propagates (ctx : ResolverCtx) (m : String)
    (ph : Option String) :
    (∀ dsc e, optTruthy (ctx.env (envKey m)) = none →
       (if ctx.workspaceDir.isSome then checkWorkspace ctx m else none) = none →
       settingsLookup ctx m = some dsc →
       parseSource ctx dsc m = .error e →
       resolve_with_layer ctx m ph = .error e)
    ∧ (∀ f, ctx.settingsProvider = some f → f m = none →
       resolve_with_layer ctx m ph =
         resolve_with_layer { ctx with settingsProvider := none } m ph)
    ∧ (optTruthy ph = none →
       resolve_with_layer ctx m ph = resolve_with_layer ctx m none) := by
  refine ⟨?_, ?_, ?_⟩
  · intro dsc e h1 h2 h3 hp
    simp only [resolve_with_layer, h1, h2, h3, hp, Except.map]
  · intro f hf hfm
    have e1 : settingsLookup ctx m = none := by
      simp only [settingsLookup, hf, hfm]
    have e2 : settingsLookup { ctx with settingsProvider := none } m = none := rfl
    simp only [resolve_with_layer, e1, e2]
    rfl
  · intro h5
    simp only [resolve_with_layer, h5]
    rfl

/-- C5 witness: in `ctxS` the settings entry for `"mod"` is a `git` record
with no `url`; resolution surfaces the `KeyError` immediately. -/
theorem claim_c5_witness :
    settingsLookup ctxS "mod" = some (.record (some "git") none none none none none)
    ∧ parseSource ctxS (.record (some "git") none none none none none) "mod" =
        .error (.keyError "url")
    ∧ resolve_with_layer ctxS "mod" none = .error (.keyError "url") :=
  ⟨rfl, rfl,
    (claim_c5_parse_error_propagates ctxS "mod" none).1
      (.record (some "git") none none none none none) (.keyError "url") rfl rfl rfl rfl⟩

theorem toUpper_ne_nl {c : Char} (hc : c ≠ '\n') : Char.toUpper c ≠ '\n' := by
  intro he
  apply hc
  simp only [Char.toUpper] at he
  split at he
  · rename_i hcond
    exfalso
    have hv : (c.toNat - 32).isValidChar := Or.inl (by omega)
    rw [Char.ofNat, dif_pos hv] at he
    have h1 : (Char.ofNatAux (c.toNat - 32) hv).toNat = c.toNat - 32 := rfl
    have h2 : (Char.ofNatAux (c.toNat - 32) hv).toNat = 10 := by rw [he]; rfl
    have h3 : c.toNat - 32 = 10 := h1.symm.trans h2
    omega
  · exact he

theorem replaceDash_ne_nl {c : Char} (hc : c ≠ '\n') :
    (if c = '-' then '_' else c) ≠ '\n' := by
  split
  · decide
  · exact hc

theorem envKey_no_nl {m : String} (hm : '\n' ∉ m.data) : '\n' ∉ (envKey m).data := by
  intro hin
  have hin2 : '\n' ∈ ("AMPLIFIER_MODULE_" : String).data ++
      (m.data.map Char.toUpper).map (fun c => if c = '-' then '_' else c) := hin
  rcases List.mem_append.mp hin2 with h | h
  · exact absurd h (by decide)
  · obtain ⟨c, hcm, hce⟩ := List.mem_map.mp h
    obtain ⟨c0, hc0m, hc0e⟩ := List.mem_map.mp hcm
    subst hc0e
    have hc0 : c0 ≠ '\n' := fun he => hm (he ▸ hc0m)
    exact replaceDash_ne_nl (toUpper_ne_nl hc0) hce

theorem no_nl_append {a b : String} (ha : '\n' ∉ a.data) (hb : '\n' ∉ b.data) :
    '\n' ∉ (a ++ b).data := by
  rw [String.data_append]
  intro h
  rcases List.mem_append.mp h with h | h
  · exact ha h
  · exact hb h

/-- C4: when all six layers fail to resolve, `resolve_with_layer` raises a
resolution error whose message is exactly the newline-join of fifteen lines:
three header lines, six lines — one per layer in order, each stating why that
layer did not resolve — and the remediation-suggestion block; for
newline-free module ids and workspace paths this join is the message's line
decomposition (no element contains a newline). -/
theorem claim_c4_not_found_message_six_layer_lines (ctx : ResolverCtx) (m : String)
    (ph : Option String)
    (h1 : optTruthy (ctx.env (envKey m)) = none)
    (h2 : (if ctx.workspaceDir.isSome then checkWorkspace ctx m else none) = none)
    (h3 : settingsLookup ctx m = none)
    (h4 : collectionLookup ctx m = none)
    (h5 : optTruthy ph = none)
    (h6 : ctx.distExists m = false)
    (h7 : ctx.distExists (convName m) = false) :
    resolve_with_layer ctx m ph = .error (.notFound (notFoundMessage ctx.workspaceDir m))
    ∧ notFoundMessage ctx.workspaceDir m =
        String.intercalate "\n" (notFoundLines ctx.workspaceDir m)
    ∧ (notFoundLines ctx.workspaceDir m).length = 15
    ∧ ((notFoundLines ctx.workspaceDir m).drop 3).take 6 =
        ["  1. Environment: " ++ envKey m ++ " (not set)",
         "  2. Workspace: " ++ (match ctx.workspaceDir with
           | some wd => pyPathJoin wd m
           | none => "N/A") ++ " (not found)",
         "  3. Settings: (no entry)",
         "  4. Collections: (no registered module)",
         "  5. Profile: (no source specified)",
         "  6. Package: Tried '" ++ m ++ "' and '" ++ convName m ++ "' (neither installed)"]
    ∧ ('\n' ∉ m.data → (∀ w, ctx.workspaceDir = some w → '\n' ∉ w.data) →
        ∀ l ∈ notFoundLines ctx.workspaceDir m, '\n' ∉ l.data) := by
  refine ⟨?_, ?_, ?_, ?_, ?_⟩
  · simp only [resolve_with_layer, h1, h2, h3, h4, h5, resolvePackage, h6, h7,
      Bool.false_eq_true, if_false, Except.map]
  · cases hwd : ctx.workspaceDir with
    | none => rfl
    | some w => rfl
  · rfl
  · rfl
  · intro hm hw l hl
    have hconv : '\n' ∉ (convName m).data := by
      show '\n' ∉ ("amplifier-module-" ++ m : String).data
      exact no_nl_append (by decide) hm
    have hkey : '\n' ∉ (envKey m).data := envKey_no_nl hm
    have hwsp : '\n' ∉ ((match ctx.workspaceDir with
        | some wd => pyPathJoin wd m
        | none => "N/A") : String).data := by
      cases hwd : ctx.workspaceDir with
      | none =>
        show '\n' ∉ ("N/A" : String).data
        decide
      | some w =>
        have hwn : '\n' ∉ w.data := hw w hwd
        show '\n' ∉ (pyPathJoin w m).data
        rw [pyPathJoin]
        split
        · exact hm
        · exact no_nl_append (no_nl_append hwn (by decide)) hm
    simp only [notFoundLines, List.mem_cons, List.not_mem_nil, or_false] at hl
    rcases hl with h | h | h | h | h | h | h | h | h | h | h | h | h | h | h <;> subst h
    · exact no_nl_append (no_nl_append (by decide) hm) (by decide)
    · decide
    · decide
    · exact no_nl_append (no_nl_append (by decide) hkey) (by decide)
    · exact no_nl_append (no_nl_append (by decide) hwsp) (by decide)
    · decide
    · decide
    · decide
    · exact no_nl_append (no_nl_append (no_nl_append
        (no_nl_append (by decide) hm) (by decide)) hconv)
        (by decide)
    · decide
    · decide
    · decide
    · decide
    · decide
    · decide

/-- C4 witness: in `ctxS` the module id `"other"` fails all six layers and
resolution returns the fifteen-line not-found diagnostic. -/
theorem claim_c4_witness :
    optTruthy (ctxS.env (envKey "other")) = none
    ∧ settingsLookup ctxS "other" = none
    ∧ ctxS.distExists "other" = false
    ∧ ctxS.distExists (convName "other") = false
    ∧ resolve_with_layer ctxS "other" none =
        .error (.notFound (notFoundMessage ctxS.workspaceDir "other"))
    ∧ notFoundMessage ctxS.workspaceDir "other" =
        String.intercalate "\n" (notFoundLines ctxS.workspaceDir "other") :=
  ⟨rfl, rfl, rfl, rfl,
    (claim_c4_not_found_message_six_layer_lines ctxS "other" none
      rfl rfl rfl rfl rfl rfl rfl).1,
    (claim_c4_not_found_message_six_layer_lines ctxS "other" none
      rfl rfl rfl rfl rfl rfl rfl).2.1⟩

/-- C6: for a structured-record descriptor of type `git`, `file`, or
`package`, a missing required field (`url` for git, `path` for file, `name`
for package) makes the parse fail with an error rather than silently
defaulting; the only defaulted field is `ref`, which defaults to `"main"`
when absent from a git record (a present `ref` is taken verbatim). -/
theorem claim_c6_missing_required_field_errors (ctx : ResolverCtx) (m : String)
    (url ref sub path nm : Option String) :
    parseSource ctx (.record (some "git") none ref sub path nm) m =
        .error (.keyError "url")
    ∧ parseSource ctx (.record (some "file") url ref sub none nm) m =
        .error (.keyError "path")
    ∧ parseSource ctx (.record (some "package") url ref sub path none) m =
        .error (.keyError "name")
    ∧ (∀ u, parseSource ctx (.record (some "git") (some u) none sub path nm) m =
        .ok (.git ⟨u, "main", sub⟩))
    ∧ (∀ u r0, parseSource ctx (.record (some "git") (some u) (some r0) sub path nm) m =
        .ok (.git ⟨u, r0, sub⟩)) :=
  ⟨rfl, rfl, rfl, fun _ => rfl, fun _ _ => rfl⟩

/-- C6 witness: the record conjuncts at concrete field values. -/
theorem claim_c6_witness :
    parseSource ctxW (.record (some "git") none none none none none) "mod" =
        .error (.keyError "url")
    ∧ parseSource ctxW (.record (some "git") (some "https://h/o/r") none none none none) "mod" =
        .ok (.git ⟨"https://h/o/r", "main", none⟩) :=
  ⟨(claim_c6_missing_required_field_errors ctxW "mod" none none none none none).1,
   (claim_c6_missing_required_field_errors ctxW "mod" none none none none none).2.2.2.1
     "https://h/o/r"⟩

theorem resolveWith_of_hit {g : GitSource} {dir : String} {fs : FS}
    {fetch : String → Except Unit FS}
    (h : (fs.pathExists (g.cachePathOf dir) &&
      GitSource.isValidCache fs (g.cachePathOf dir)) = true) :
    GitSource.resolveWith g dir fs fetch = (.ok (g.finalPathOf dir), 0) := by
  simp only [GitSource.resolveWith, h, if_true]

theorem resolveWith_snd_of_miss {g : GitSource} {dir : String} {fs : FS}
    {fetch : String → Except Unit FS}
    (h : (fs.pathExists (g.cachePathOf dir) &&
      GitSource.isValidCache fs (g.cachePathOf dir)) = false) :
    (GitSource.resolveWith g dir fs fetch).2 = 1 := by
  simp only [GitSource.resolveWith, h, Bool.false_eq_true, if_false]
  cases hf : fetch (g.cachePathOf dir) with
  | error e => rfl
  | ok fs2 =>
    split
    · rfl
    · split <;> rfl

/-- C3: `GitSource.resolve` invokes the fetch collaborator exactly when the
cache path is missing or contains no Python file beneath it: an
already-populated valid cache yields zero fetch calls, while a cache
directory that exists but is empty is a miss triggering exactly one fetch
call (never a corrupt-cache error raised without fetching). -/
theorem claim_c3_fetch_exactly_on_cache_miss (g : GitSource) (dir : String) (fs : FS)
    (fetch : String → Except Unit FS) :
    ((GitSource.resolveWith g dir fs fetch).2 = 1 ↔
      (fs.pathExists (g.cachePathOf dir) = false ∨
       fs.hasPyFiles (g.cachePathOf dir) = false))
    ∧ (fs.pathExists (g.cachePathOf dir) = true →
       fs.hasPyFiles (g.cachePathOf dir) = true →
       GitSource.resolveWith g dir fs fetch = (.ok (g.finalPathOf dir), 0))
    ∧ (fs.pathExists (g.cachePathOf dir) = true →
       fs.hasPyFiles (g.cachePathOf dir) = false →
       (GitSource.resolveWith g dir fs fetch).2 = 1) := by
  refine ⟨?_, ?_, ?_⟩
  · cases hp : fs.pathExists (g.cachePathOf dir) with
    | true =>
      cases hv : fs.hasPyFiles (g.cachePathOf dir) with
      | true =>
        rw [resolveWith_of_hit (by simp [GitSource.isValidCache, hp, hv])]
        simp [hp, hv]
      | false =>
        rw [resolveWith_snd_of_miss (by simp [GitSource.isValidCache, hp, hv])]
        simp [hp, hv]
    | false =>
      rw [resolveWith_snd_of_miss (by simp [GitSource.isValidCache, hp])]
      simp [hp]
  · intro hp hv
    exact resolveWith_of_hit (by simp [GitSource.isValidCache, hp, hv])
  · intro hp hv
    exact resolveWith_snd_of_miss (by simp [GitSource.isValidCache, hp, hv])

/-- C3 witness: with a valid cache (everything exists and has Python files)
the resolve performs zero fetch calls; with an existing-but-empty cache it
performs exactly one. -/
theorem claim_c3_witness :
    GitSource.resolveWith ⟨"https://h/o/r", "v1", none⟩ "/cache"
        ⟨fun _ => true, fun _ => true⟩ (fun _ => .error ()) =
      (.ok (GitSource.finalPathOf ⟨"https://h/o/r", "v1", none⟩ "/cache"), 0)
    ∧ (GitSource.resolveWith ⟨"https://h/o/r", "v1", none⟩ "/cache"
        ⟨fun _ => true, fun _ => false⟩ (fun _ => .error ())).2 = 1 :=
  ⟨(claim_c3_fetch_exactly_on_cache_miss ⟨"https://h/o/r", "v1", none⟩ "/cache"
      ⟨fun _ => true, fun _ => true⟩ (fun _ => .error ())).2.1 rfl rfl,
   (claim_c3_fetch_exactly_on_cache_miss ⟨"https://h/o/r", "v1", none⟩ "/cache"
      ⟨fun _ => true, fun _ => false⟩ (fun _ => .error ())).2.2 rfl rfl⟩

/-- C9: for a GitSource with a subdirectory set, if the cache path exists and
contains a Python file beneath it, resolve returns `cache_path/subdirectory`
with zero fetch calls and without checking that this final path exists (the
hypotheses allow, and the witness exhibits, a nonexistent final path); the
distinct subdirectory-not-found error can only arise on the fetch branch
(its fetch count is always 1). -/
theorem claim_c9_cache_hit_skips_subdirectory_check (g : GitSource) (dir : String)
    (fs : FS) (fetch : String → Except Unit FS) (d : String) :
    (g.subdirectory = some d → d ≠ "" →
     fs.pathExists (g.cachePathOf dir) = true →
     fs.hasPyFiles (g.cachePathOf dir) = true →
     fs.pathExists (pyPathJoin (g.cachePathOf dir) d) = false →
     GitSource.resolveWith g dir fs fetch = (.ok (pyPathJoin (g.cachePathOf dir) d), 0))
    ∧ (∀ sub n, GitSource.resolveWith g dir fs fetch =
        (.error (.subdirectoryNotFound sub), n) → n = 1) := by
  constructor
  · intro hsub hd hp hv _
    rw [resolveWith_of_hit (by simp [GitSource.isValidCache, hp, hv])]
    simp only [GitSource.finalPathOf, hsub]
    rw [if_neg hd]
  · intro sub n h
    by_cases hc : (fs.pathExists (g.cachePathOf dir) &&
        GitSource.isValidCache fs (g.cachePathOf dir)) = true
    · rw [resolveWith_of_hit hc] at h
      simp at h
    · have hcf : (fs.pathExists (g.cachePathOf dir) &&
          GitSource.isValidCache fs (g.cachePathOf dir)) = false := by
        revert hc
        cases fs.pathExists (g.cachePathOf dir) && GitSource.isValidCache fs (g.cachePathOf dir)
        · intro _
          rfl
        · intro hc
          exact absurd rfl hc
      have hn := @resolveWith_snd_of_miss g dir fs fetch hcf
      rw [h] at hn
      exact hn

set_option maxRecDepth 40000 in
/-- C9 witness: in `fs9` the cache path exists (with Python files) but the
final subdirectory path does not; resolve still returns the final path with
zero fetch calls. -/
theorem claim_c9_witness :
    fs9.pathExists
        (GitSource.cachePathOf ⟨"https://h/o/r", "v1", some "p"⟩ "/cache") = true
    ∧ fs9.pathExists
        (pyPathJoin (GitSource.cachePathOf ⟨"https://h/o/r", "v1", some "p"⟩ "/cache") "p") =
      false
    ∧ GitSource.resolveWith ⟨"https://h/o/r", "v1", some "p"⟩ "/cache" fs9
        (fun _ => .error ()) =
      (.ok (pyPathJoin
        (GitSource.cachePathOf ⟨"https://h/o/r", "v1", some "p"⟩ "/cache") "p"), 0) :=
  ⟨by decide, by decide,
   (claim_c9_cache_hit_skips_subdirectory_check ⟨"https://h/o/r", "v1", some "p"⟩
      "/cache" fs9 (fun _ => .error ()) "p").1 rfl (by decide) (by decide) rfl (by decide)⟩

theorem shaCompress_length {hs : List Nat} (blk : List Nat) (h : hs.length = 8) :
    (shaCompress hs blk).length = 8 := by
  simp only [shaCompress]
  rcases (List.range 64).foldl (shaRound (shaSchedule (bytesToWords blk).toArray))
      (hs.getD 0 0, hs.getD 1 0, hs.getD 2 0, hs.getD 3 0,
       hs.getD 4 0, hs.getD 5 0, hs.getD 6 0, hs.getD 7 0) with
    ⟨a, b, c, d, e, f, g2, h2⟩
  simp [h]

theorem foldl_shaCompress_length (blocks : List (List Nat)) (hs : List Nat)
    (h : hs.length = 8) : (blocks.foldl shaCompress hs).length = 8 := by
  induction blocks generalizing hs with
  | nil => exact h
  | cons b bs ih => exact ih _ (shaCompress_length b h)

theorem sha256Words_length (msg : List Nat) : (sha256Words msg).length = 8 :=
  foldl_shaCompress_length _ _ rfl

theorem nibbleHex_bounded_ne_slash : ∀ k, k < 16 → nibbleHex k ≠ '/' := by decide

theorem isPrefixOf_slash_cons {c : Char} (hc : c ≠ '/') (t : List Char) :
    List.isPrefixOf ['/'] (c :: t) = false := by
  have hb : ('/' == c) = false := beq_eq_false_iff_ne.mpr (Ne.symm hc)
  show (('/' == c) && List.isPrefixOf ([] : List Char) t) = false
  rw [hb]
  rfl

theorem cacheKey_not_slash (g : GitSource) : pyStartsWith g.cacheKey "/" = false := by
  have hlen := sha256Words_length (utf8Encode (g.url ++ "@" ++ g.ref))
  cases hw : sha256Words (utf8Encode (g.url ++ "@" ++ g.ref)) with
  | nil =>
    rw [hw] at hlen
    simp at hlen
  | cons w0 rest =>
    have hwx : wordHex w0 = nibbleHex ((w0 >>> 28) % 16) ::
        [nibbleHex ((w0 >>> 24) % 16), nibbleHex ((w0 >>> 20) % 16),
         nibbleHex ((w0 >>> 16) % 16), nibbleHex ((w0 >>> 12) % 16),
         nibbleHex ((w0 >>> 8) % 16), nibbleHex ((w0 >>> 4) % 16),
         nibbleHex ((w0 >>> 0) % 16)] := rfl
    have hc : nibbleHex ((w0 >>> 28) % 16) ≠ '/' :=
      nibbleHex_bounded_ne_slash _ (Nat.mod_lt _ (by omega))
    show List.isPrefixOf ['/']
      ((sha256Hex (utf8Encode (g.url ++ "@" ++ g.ref))).data.take 12) = false
    rw [show (sha256Hex (utf8Encode (g.url ++ "@" ++ g.ref))).data =
      ((sha256Words (utf8Encode (g.url ++ "@" ++ g.ref))).map wordHex).flatten from rfl]
    rw [hw, List.map_cons, List.flatten_cons, hwx, List.cons_append]
    exact isPrefixOf_slash_cons hc _

/-- C7: the cache key is the first 12 hex characters of the SHA-256 of the
UTF-8 string `url@ref`; the cache path is `<cache_root>/<key>/<ref>`; and for
a set (truthy, relative) subdirectory the resolved path on a cache hit is
that subdirectory joined under the cache path. -/
theorem claim_c7_cache_key_and_paths (g : GitSource) (dir : String) (fs : FS)
    (fetch : String → Except Unit FS) (d : String)
    (hr2 : pyStartsWith g.ref "/" = false)
    (hsub : g.subdirectory = some d) (hd1 : d ≠ "")
    (hd2 : pyStartsWith d "/" = false) :
    g.cacheKey = strTake (sha256HexOfString (g.url ++ "@" ++ g.ref)) 12
    ∧ g.cachePathOf dir = dir ++ "/" ++ g.cacheKey ++ "/" ++ g.ref
    ∧ g.finalPathOf dir = g.cachePathOf dir ++ "/" ++ d
    ∧ (fs.pathExists (g.cachePathOf dir) = true →
       fs.hasPyFiles (g.cachePathOf dir) = true →
       (GitSource.resolveWith g dir fs fetch).1 =
         .ok (dir ++ "/" ++ g.cacheKey ++ "/" ++ g.ref ++ "/" ++ d)) := by
  have hpath : g.cachePathOf dir = dir ++ "/" ++ g.cacheKey ++ "/" ++ g.ref := by
    simp only [GitSource.cachePathOf, pyPathJoin, cacheKey_not_slash g, hr2,
      Bool.false_eq_true, if_false]
  have hfin : g.finalPathOf dir = g.cachePathOf dir ++ "/" ++ d := by
    simp only [GitSource.finalPathOf, hsub]
    rw [if_neg hd1]
    simp only [pyPathJoin, hd2, Bool.false_eq_true, if_false]
  refine ⟨rfl, hpath, hfin, ?_⟩
  intro hp hv
  rw [resolveWith_of_hit (by simp [GitSource.isValidCache, hp, hv])]
  rw [hfin, hpath]

set_option maxRecDepth 40000 in
/-- C7 witness: the cache path shape at the concrete GitSource
`url=https://h/o/r, ref=v1, subdirectory=p`, including the concrete SHA-256
derived key `83446eb1387b`. -/
theorem claim_c7_witness :
    pyStartsWith ("v1" : String) "/" = false
    ∧ ("p" : String) ≠ ""
    ∧ pyStartsWith ("p" : String) "/" = false
    ∧ GitSource.cachePathOf ⟨"https://h/o/r", "v1", some "p"⟩ "/cache" =
        "/cache" ++ "/" ++ GitSource.cacheKey ⟨"https://h/o/r", "v1", some "p"⟩ ++ "/" ++ "v1"
    ∧ GitSource.cacheKey ⟨"https://h/o/r", "v1", some "p"⟩ = "83446eb1387b"
    ∧ GitSource.cachePathOf ⟨"https://h/o/r", "v1", some "p"⟩ "/cache" =
        "/cache/83446eb1387b/v1" :=
  ⟨rfl, by decide, rfl,
   (claim_c7_cache_key_and_paths ⟨"https://h/o/r", "v1", some "p"⟩ "/cache"
      ⟨fun _ => true, fun _ => true⟩ (fun _ => .error ()) "p" rfl rfl (by decide) rfl).2.1,
   by decide, by decide⟩
